import Mathlib

/-!
A verification development for `steam_launcher.py`, a single-file tool that
reconciles game identifiers found in a Steam `libraryfolders.vdf` file with a
local SQLite catalog, enriches new identifiers with display names fetched from
a remote metadata endpoint (with bounded retry and randomized backoff), and
then presents a selection menu to launch one game.

The embedding below is shallow: Python sets become `Finset ℕ`, the SQLite
`games` table becomes a list of rows in insertion (rowid) order, wall-clock
timestamps become naturals drawn from an abstract clock oracle, the network
becomes an oracle from attempt index to a response record, and
`random.random()` becomes an oracle from attempt index to a rational in
`[0, 1)`.  Calls that can raise (the transport status check in
`request_app_name`, the batch insertion in `update_db`, the exit-status check
in `launch_game`) are modelled with `Except`.
-/

namespace SteamLauncher

/-! ## Reconciler (`get_new_appids`, `get_old_appids`, `strip_blacklisted_appids`) -/

/-- Python `get_new_appids(file_appids, db_appids)` returns
`file_appids.difference(db_appids)` (steam_launcher.py lines 85-88). -/
def get_new_appids (file_appids db_appids : Finset ℕ) : Finset ℕ :=
  file_appids \ db_appids

/-- Python `get_old_appids(file_appids, db_appids)` returns
`db_appids.difference(file_appids)` (steam_launcher.py lines 91-94). -/
def get_old_appids (file_appids db_appids : Finset ℕ) : Finset ℕ :=
  db_appids \ file_appids

/-- Python `strip_blacklisted_appids(appids, blacklist)` returns
`appids.difference(blacklist)` (steam_launcher.py lines 97-102). -/
def strip_blacklisted_appids (appids blacklist : Finset ℕ) : Finset ℕ :=
  appids \ blacklist

/-- The reconciliation performed by `main` (steam_launcher.py lines 208-214):
new identifiers are `get_new_appids`, filtered through
`strip_blacklisted_appids` only when the blacklist is non-empty (Python's
`if blacklist:` truthiness test); stale identifiers are `get_old_appids`,
with no blacklist filtering. -/
def reconcile (F C X : Finset ℕ) : Finset ℕ × Finset ℕ :=
  (if X = ∅ then get_new_appids F C else strip_blacklisted_appids (get_new_appids F C) X,
   get_old_appids F C)

/-! ## Metadata resolver (`request_app_name`) -/

/-- One transport-level response of the metadata endpoint: the HTTP status of
the response, the semantic `success` flag inside the JSON payload, and the
payload's raw `name` field. -/
structure ApiResponse where
  status : ℕ
  success : Bool
  name : String
deriving DecidableEq

/-- Observable outcome of one call to `request_app_name`: the returned value
(`Except.error s` models the `RuntimeError` raised when the transport status
`s` is not 200), the number of network requests issued, and the backoff
delays slept, in seconds, in chronological order. -/
structure ResolveResult where
  outcome : Except ℕ String
  requests : ℕ
  sleeps : List ℚ

/-- The retry loop of `request_app_name(appid, max_tries)` (steam_launcher.py
lines 105-127), at attempt index `i` with `fuel` attempts left.  `resp j` is
the transport response received on attempt `j`, and `r j` is the value drawn
from `random.random()` (uniform in `[0, 1)`) on attempt `j`.  A non-200
status raises; a 200 response whose payload flag is false sleeps
`1.0 + random() * i²` seconds and retries; a 200 response with a true flag
returns the stripped name.  Falling out of the loop returns `""`. -/
def resolveGo (resp : ℕ → ApiResponse) (r : ℕ → ℚ) : ℕ → ℕ → ResolveResult
  | _, 0 => ⟨Except.ok "", 0, []⟩
  | i, fuel + 1 =>
    if (resp i).status ≠ 200 then ⟨Except.error (resp i).status, 1, []⟩
    else if (resp i).success = false then
      let rest := resolveGo resp r (i + 1) fuel
      ⟨rest.outcome, rest.requests + 1, (1 + r i * (i : ℚ) ^ 2) :: rest.sleeps⟩
    else ⟨Except.ok (resp i).name.trim, 1, []⟩

/-- Python `request_app_name(appid, max_tries)` runs the retry loop with attempt
indices starting at 1 (Python's `range(1, max_tries + 1)`). -/
def request_app_name (resp : ℕ → ApiResponse) (r : ℕ → ℚ) (max_tries : ℕ) :
    ResolveResult :=
  resolveGo resp r 1 max_tries

/-! ## Persistent catalog (the `games` table) -/

/-- One row of the `games` table, schema `(appid INTEGER PRIMARY KEY,
name TEXT, timestamp timestamp)` (steam_launcher.py line 59).  The timestamp
column is nullable, hence `Option ℕ`; the table itself is a list of rows in
insertion (rowid) order. -/
structure Row where
  appid : ℕ
  name : String
  timestamp : Option ℕ
deriving DecidableEq

/-- Sort key of `ORDER BY timestamp DESC NULLS LAST`: a NULL timestamp ranks
below every concrete timestamp, and a larger timestamp ranks higher. -/
def keyRank : Option ℕ → ℕ
  | none => 0
  | some t => t + 1

/-- One step of a stable descending sort for `ORDER BY timestamp DESC NULLS
LAST`: the new row moves ahead of an existing row only when its key is
strictly larger, so rows with equal keys keep their relative insertion
order. -/
def insert_row (x : Row) : List Row → List Row
  | [] => [x]
  | y :: ys =>
    if keyRank y.timestamp < keyRank x.timestamp then x :: y :: ys
    else y :: insert_row x ys

/-- The row sequence produced by `SELECT name, appid FROM games ORDER BY
timestamp DESC NULLS LAST` (steam_launcher.py lines 159-161), modelled as a
stable sort of the stored rows by descending timestamp. -/
def order_rows (db : List Row) : List Row :=
  db.foldl (fun acc x => insert_row x acc) []

/-- One Python dict update `entries[name] = appid` (steam_launcher.py line
162): an existing key keeps its position but receives the new value; a fresh
key is appended at the end. -/
def dictInsert (d : List (String × ℕ)) (k : String) (v : ℕ) : List (String × ℕ) :=
  if d.any (fun p => p.1 == k) then d.map (fun p => if p.1 = k then (k, v) else p)
  else d ++ [(k, v)]

/-- Python `get_game_entries(con)` (steam_launcher.py lines 156-165): fold the rows
of the ordered query into a Python dict keyed by display name and holding
the appid; a later row whose name is already present overwrites the stored
appid. -/
def get_game_entries (db : List Row) : List (String × ℕ) :=
  (order_rows db).foldl (fun d row => dictInsert d row.name row.appid) []

/-- The enrichment loop of `update_db(con, appids)` (steam_launcher.py lines
130-141): for each appid in order, resolve the name — `resolve a` is the
value returned, or the transport error raised, by `request_app_name(a)`.  An
empty name is skipped with a logged error; otherwise a row stamped with the
next timestamp drawn from the clock is collected.  A raised transport error
propagates and aborts the whole batch.  (The pacing sleep of 0-5 seconds
after each collected entry has no observable effect here and is not
recorded.) -/
def build_entries (resolve : ℕ → Except ℕ String) (clock : ℕ → ℕ) :
    ℕ → List ℕ → Except ℕ (List Row)
  | _, [] => Except.ok []
  | t, a :: rest =>
    match resolve a with
    | Except.error e => Except.error e
    | Except.ok name =>
      if name.length = 0 then build_entries resolve clock t rest
      else
        match build_entries resolve clock (t + 1) rest with
        | Except.error e => Except.error e
        | Except.ok es => Except.ok (⟨a, name, some (clock t)⟩ :: es)

/-- Python `update_db(con, appids)` (steam_launcher.py lines 130-145): only after
the whole enrichment loop has finished does the single `executemany` INSERT
run, appending the collected rows to the table; if the loop raised, nothing
at all is inserted. -/
def update_db (resolve : ℕ → Except ℕ String) (clock : ℕ → ℕ) (t : ℕ)
    (db : List Row) (appids : List ℕ) : Except ℕ (List Row) :=
  match build_entries resolve clock t appids with
  | Except.error e => Except.error e
  | Except.ok es => Except.ok (db ++ es)

/-- Python `clean_db(con, appids)` (steam_launcher.py lines 148-153): one DELETE per
listed appid; the net effect keeps exactly the rows whose appid is not
listed. -/
def clean_db (db : List Row) (appids : List ℕ) : List Row :=
  db.filter (fun row => !(appids.contains row.appid))

/-- Python `launch_game(appid, con)` (steam_launcher.py lines 183-198): run the
external launcher; a non-zero exit code raises `CalledProcessError`
(modelled as `Except.error returncode`) and leaves the table untouched; a
zero exit code updates the selected row's timestamp to the current time
`now`. -/
def launch_game (returncode : ℕ) (now : ℕ) (db : List Row) (appid : ℕ) :
    Except ℕ Unit × List Row :=
  if returncode ≠ 0 then (Except.error returncode, db)
  else (Except.ok (), db.map (fun row =>
    if row.appid = appid then ⟨row.appid, row.name, some now⟩ else row))

/-- The catalog-update phase of `main` (steam_launcher.py lines 208-218):
diff the file appids against the stored appids, strip the blacklist from the
new identifiers when a blacklist is configured, enrich and insert the new
identifiers when there are any, and delete the stale ones when there are
any.  The arbitrary iteration order Python obtains from a `set` is modelled
by the ascending sort of the corresponding `Finset`. -/
def main_update (resolve : ℕ → Except ℕ String) (clock : ℕ → ℕ) (t : ℕ)
    (db : List Row) (file_appids blacklist : List ℕ) : Except ℕ (List Row) :=
  let fileSet := file_appids.toFinset
  let dbSet := (db.map Row.appid).toFinset
  let newSet := if blacklist = [] then get_new_appids fileSet dbSet
    else strip_blacklisted_appids (get_new_appids fileSet dbSet) blacklist.toFinset
  let newIds := newSet.sort (· ≤ ·)
  let oldIds := (get_old_appids fileSet dbSet).sort (· ≤ ·)
  match (if newIds = [] then Except.ok db else update_db resolve clock t db newIds) with
  | Except.error e => Except.error e
  | Except.ok db1 => Except.ok (if oldIds = [] then db1 else clean_db db1 oldIds)

/-! ## Theorems -/

/-- If the `k` attempts starting at index `i` all answer with status 200 and
a false success flag, the loop consumes them — one request and one backoff
sleep per attempt — and continues at attempt `i + k` with `k` fewer units of
fuel. -/
theorem resolveGo_fail_segment (resp : ℕ → ApiResponse) (r : ℕ → ℚ)
    (k : ℕ) :
    ∀ i fuel, k ≤ fuel →
    (∀ j, i ≤ j → j < i + k → (resp j).status = 200 ∧ (resp j).success = false) →
    resolveGo resp r i fuel =
      ⟨(resolveGo resp r (i + k) (fuel - k)).outcome,
       (resolveGo resp r (i + k) (fuel - k)).requests + k,
       ((List.range k).map (fun t => 1 + r (i + t) * ((i + t : ℕ) : ℚ) ^ 2)) ++
         (resolveGo resp r (i + k) (fuel - k)).sleeps⟩ := by
  induction k with
  | zero => intro i fuel _ _; simp
  | succ k ih =>
    intro i fuel hk h
    obtain ⟨fuel', rfl⟩ : ∃ f, fuel = f + 1 := ⟨fuel - 1, by omega⟩
    have hi := h i (le_refl i) (by omega)
    have hstep : resolveGo resp r i (fuel' + 1) =
        ⟨(resolveGo resp r (i + 1) fuel').outcome,
         (resolveGo resp r (i + 1) fuel').requests + 1,
         (1 + r i * (i : ℚ) ^ 2) :: (resolveGo resp r (i + 1) fuel').sleeps⟩ := by
      rw [resolveGo]
      rw [if_neg (by simp [hi.1]), if_pos hi.2]
    have hrec := ih (i + 1) fuel' (by omega)
      (fun j hj1 hj2 => h j (by omega) (by omega))
    have hidx : i + 1 + k = i + (k + 1) := by omega
    have hfuel : fuel' - k = fuel' + 1 - (k + 1) := by omega
    rw [hstep, hrec, hidx, hfuel]
    simp only [ResolveResult.mk.injEq]
    refine ⟨by trivial, by omega, ?_⟩
    rw [List.range_succ_eq_map, List.map_cons, List.map_map]
    simp only [List.cons_append, List.cons.injEq]
    constructor
    · norm_num
    · congr 2
      funext t
      simp only [Function.comp]
      have : i + 1 + t = i + (t + 1) := by omega
      rw [this]

/-- C1: for every file identifier set `F` and catalog identifier set `C`,
reconciliation with an empty exclusion set computes `new = F − C` and
`stale = C − F`, and the two results are disjoint. -/
theorem reconcile_empty_exclusion (F C : Finset ℕ) :
    reconcile F C ∅ = (F \ C, C \ F) ∧ Disjoint (F \ C) (C \ F) := by
  constructor
  · simp [reconcile, get_new_appids, get_old_appids]
  · exact disjoint_sdiff_sdiff

/-- C2: for every `F`, `C`, `X`, the exclusion filter only shrinks the `new`
result — `new = (F − C) − X`, which is contained in the `new` result of
reconciliation without exclusions — and the `stale` result is `C − F`
independently of `X`. -/
theorem exclusion_shrinks_new_only (F C X : Finset ℕ) :
    (reconcile F C X).1 = (F \ C) \ X ∧
    (reconcile F C X).1 ⊆ (reconcile F C ∅).1 ∧
    (reconcile F C X).2 = C \ F := by
  refine ⟨?_, ?_, ?_⟩
  · by_cases hX : X = ∅ <;>
      simp [reconcile, get_new_appids, strip_blacklisted_appids, hX]
  · by_cases hX : X = ∅ <;>
      simp [reconcile, get_new_appids, strip_blacklisted_appids, hX,
        Finset.sdiff_subset]
  · simp [reconcile, get_old_appids]

/-- C5: reconciliation is idempotent under application of its own result.
Applying the first result to the catalog gives
`C' = (C ∩ F) ∪ ((F − C) − X)`; reconciling the unchanged `F` against `C'`
with the same `X` yields `(∅, ∅)`. -/
theorem reconcile_idempotent (F C X : Finset ℕ) :
    reconcile F ((C ∩ F) ∪ ((F \ C) \ X)) X = (∅, ∅) := by
  have hsub : (C ∩ F) ∪ ((F \ C) \ X) ⊆ F := by
    intro a ha
    rcases Finset.mem_union.mp ha with h | h
    · exact (Finset.mem_inter.mp h).2
    · exact (Finset.mem_sdiff.mp (Finset.mem_sdiff.mp h).1).1
  have hstale : ((C ∩ F) ∪ ((F \ C) \ X)) \ F = ∅ :=
    Finset.sdiff_eq_empty_iff_subset.mpr hsub
  have hnew : F \ ((C ∩ F) ∪ ((F \ C) \ X)) = (F \ C) ∩ X := by
    ext a
    simp only [Finset.mem_sdiff, Finset.mem_union, Finset.mem_inter]
    tauto
  by_cases hX : X = ∅
  · subst hX
    refine Prod.ext ?_ ?_
    · have : F \ ((C ∩ F) ∪ ((F \ C) \ ∅)) = ∅ := by
        rw [hnew]
        exact Finset.inter_empty (F \ C)
      simpa [reconcile, get_new_appids] using this
    · simpa [reconcile, get_old_appids] using hstale
  · refine Prod.ext ?_ ?_
    · have : (F \ ((C ∩ F) ∪ ((F \ C) \ X))) \ X = ∅ := by
        rw [hnew]
        ext a
        simp only [Finset.mem_sdiff, Finset.mem_inter, Finset.not_mem_empty]
        tauto
      simpa [reconcile, get_new_appids, strip_blacklisted_appids, hX] using this
    · simpa [reconcile, get_old_appids] using hstale

/-- C3: when every attempt's transport succeeds (status 200) but the
payload's success flag is false, `request_app_name` makes exactly
`max_tries` requests and returns the empty string without raising; when the
transport response of attempt 1 has a non-200 status, it raises at once,
after a single request and with no sleep. -/
theorem resolver_exhaustion_and_transport (resp₁ resp₂ : ℕ → ApiResponse)
    (r₁ r₂ : ℕ → ℚ) (m : ℕ) :
    ((∀ j, 1 ≤ j → j ≤ m → (resp₁ j).status = 200 ∧ (resp₁ j).success = false) →
      (request_app_name resp₁ r₁ m).outcome = Except.ok "" ∧
      (request_app_name resp₁ r₁ m).requests = m) ∧
    (1 ≤ m → (resp₂ 1).status ≠ 200 →
      request_app_name resp₂ r₂ m = ⟨Except.error ((resp₂ 1).status), 1, []⟩) := by
  constructor
  · intro h
    have hseg := resolveGo_fail_segment resp₁ r₁ m 1 m (le_refl m)
      (fun j hj1 hj2 => h j hj1 (by omega))
    rw [request_app_name, hseg]
    simp [resolveGo]
  · intro hm hs
    obtain ⟨m', rfl⟩ : ∃ k, m = k + 1 := ⟨m - 1, by omega⟩
    rw [request_app_name, resolveGo, if_pos hs]

/-- C3 witness: with three attempts that all answer status 200 and a false
flag, the resolver returns `""` after 3 requests; with a status-500 answer
on attempt 1 it raises at once with one request and no sleep. -/
theorem resolver_exhaustion_and_transport_witness :
    (request_app_name (fun _ => ⟨200, false, "x"⟩) (fun _ => 0) 3).outcome =
      Except.ok "" ∧
    (request_app_name (fun _ => ⟨200, false, "x"⟩) (fun _ => 0) 3).requests = 3 ∧
    request_app_name (fun _ => ⟨500, true, "y"⟩) (fun _ => 0) 3 =
      ⟨Except.error 500, 1, []⟩ := by
  have h := resolver_exhaustion_and_transport (fun _ => ⟨200, false, "x"⟩)
    (fun _ => ⟨500, true, "y"⟩) (fun _ => 0) (fun _ => 0) 3
  exact ⟨(h.1 (fun j hj1 hj2 => ⟨rfl, rfl⟩)).1,
    (h.1 (fun j hj1 hj2 => ⟨rfl, rfl⟩)).2,
    h.2 (by norm_num) (by norm_num)⟩

/-- C8: when the resolver reaches attempt `i` (all attempts up to and
including `i` answered status 200 with a false success flag) inside a run of
`max_tries = m ≥ i` attempts, the backoff delay it sleeps after attempt `i`
is exactly `1.0 + r i * i²` seconds, `r i` being the single `random.random()`
draw of attempt `i`. -/
theorem resolver_backoff_delay (resp : ℕ → ApiResponse) (r : ℕ → ℚ) (m i : ℕ)
    (h1 : 1 ≤ i) (h2 : i ≤ m)
    (hf : ∀ j, 1 ≤ j → j ≤ i → (resp j).status = 200 ∧ (resp j).success = false) :
    (request_app_name resp r m).sleeps[i - 1]? = some (1 + r i * (i : ℚ) ^ 2) := by
  have hseg := resolveGo_fail_segment resp r i 1 m (by omega)
    (fun j hj1 hj2 => hf j hj1 (by omega))
  rw [request_app_name, hseg]
  have hlen : i - 1 <
      ((List.range i).map (fun t => 1 + r (1 + t) * ((1 + t : ℕ) : ℚ) ^ 2)).length := by
    simp; omega
  rw [List.getElem?_append_left hlen]
  have hi : i - 1 < i := by omega
  simp only [List.getElem?_map, List.getElem?_range hi, Option.map_some']
  have h1i : 1 + (i - 1) = i := by omega
  rw [h1i]

/-- C8 witness: with every attempt failing semantically and the random draw
returning 1/2, the delay slept after attempt 2 is `1 + (1/2) * 2² = 3`
seconds. -/
theorem resolver_backoff_delay_witness :
    (request_app_name (fun _ => ⟨200, false, "x"⟩) (fun _ => (1 : ℚ) / 2) 3).sleeps[1]? =
      some (3 : ℚ) := by
  have h := resolver_backoff_delay (fun _ => ⟨200, false, "x"⟩)
    (fun _ => (1 : ℚ) / 2) 3 2 (by norm_num) (by norm_num)
    (fun j hj1 hj2 => ⟨rfl, rfl⟩)
  norm_num at h
  exact h

/-- C7: when the external launcher exits with a non-zero status,
`launch_game` raises, surfacing the exit code, and the catalog — including
every row's last-launched timestamp — is left exactly as it was; the
timestamp of the selected row is set to `now` only on a zero exit status. -/
theorem launch_failure_no_touch (rc now : ℕ) (db : List Row) (appid : ℕ) :
    (rc ≠ 0 → launch_game rc now db appid = (Except.error rc, db)) ∧
    (launch_game 0 now db appid).1 = Except.ok () ∧
    (launch_game 0 now db appid).2 = db.map (fun row =>
      if row.appid = appid then ⟨row.appid, row.name, some now⟩ else row) := by
  refine ⟨fun h => ?_, ?_, ?_⟩
  · simp [launch_game, h]
  · simp [launch_game]
  · simp [launch_game]

/-- C7 witness: exit code 1 surfaces `error 1` and leaves the stored row
`(5, "g", some 2)` untouched; exit code 0 touches its timestamp to 7. -/
theorem launch_failure_no_touch_witness :
    launch_game 1 7 [⟨5, "g", some 2⟩] 5 = (Except.error 1, [⟨5, "g", some 2⟩]) ∧
    (launch_game 0 7 [⟨5, "g", some 2⟩] 5).2 = [⟨5, "g", some 7⟩] := by
  have h := launch_failure_no_touch 1 7 [⟨5, "g", some 2⟩] 5
  refine ⟨h.1 (by norm_num), ?_⟩
  rw [(launch_failure_no_touch 0 7 [⟨5, "g", some 2⟩] 5).2.2]
  rfl

/-- If the enrichment loop of `update_db` succeeded, then name resolution
was attempted — and did not raise — for every identifier of the batch. -/
theorem build_entries_ok_resolves_all (resolve : ℕ → Except ℕ String)
    (clock : ℕ → ℕ) :
    ∀ (appids : List ℕ) (t : ℕ) (es : List Row),
      build_entries resolve clock t appids = Except.ok es →
      ∀ a ∈ appids, ∃ s, resolve a = Except.ok s := by
  intro appids
  induction appids with
  | nil => intro t es _ a ha; cases ha
  | cons b rest ih =>
    intro t es hok a ha
    rw [build_entries] at hok
    cases hr : resolve b with
    | error e => rw [hr] at hok; cases hok
    | ok name =>
      rw [hr] at hok
      simp only [] at hok
      rcases List.mem_cons.mp ha with rfl | hmem
      · exact ⟨name, hr⟩
      · by_cases hl : name.length = 0
        · rw [if_pos hl] at hok
          exact ih t es hok a hmem
        · rw [if_neg hl] at hok
          cases hrest : build_entries resolve clock (t + 1) rest with
          | error e => rw [hrest] at hok; cases hok
          | ok es2 => exact ih (t + 1) es2 hrest a hmem

/-- C10: enrichment is all-or-nothing at the batch level — if resolution of
any identifier of the batch raises a transport error, `update_db` raises and
inserts nothing, including the identifiers resolved successfully earlier in
the batch. -/
theorem update_db_all_or_nothing (resolve : ℕ → Except ℕ String)
    (clock : ℕ → ℕ) (t : ℕ) (db : List Row) (appids : List ℕ) (a e : ℕ)
    (ha : a ∈ appids) (he : resolve a = Except.error e) :
    (update_db resolve clock t db appids).isOk = false := by
  rw [update_db]
  cases hb : build_entries resolve clock t appids with
  | error e2 => rfl
  | ok es =>
    obtain ⟨s, hs⟩ := build_entries_ok_resolves_all resolve clock appids t es hb a ha
    rw [hs] at he
    cases he

/-- C10 witness: in the batch `[1, 2]` where appid 1 resolves fine and
appid 2 raises a status-500 transport error, `update_db` raises and inserts
nothing — not even the already-resolved appid 1. -/
theorem update_db_all_or_nothing_witness :
    (update_db (fun a => if a = 1 then Except.ok "A" else Except.error 500)
      (fun t => t) 0 [] [1, 2]).isOk = false :=
  update_db_all_or_nothing (fun a => if a = 1 then Except.ok "A" else Except.error 500)
    (fun t => t) 0 [] [1, 2] 2 500 (by norm_num) (by norm_num)

/-- The output order of the `ORDER BY timestamp DESC NULLS LAST` query:
`a` may stand before `b` when `b`'s key does not exceed `a`'s. -/
def RowOrdered (a b : Row) : Prop :=
  keyRank b.timestamp ≤ keyRank a.timestamp

/-- Inserting a row into a list permutes consing it at the front. -/
theorem insert_row_perm (x : Row) : ∀ l : List Row, (insert_row x l).Perm (x :: l) := by
  intro l
  induction l with
  | nil => simp [insert_row]
  | cons y ys ih =>
    rw [insert_row]
    by_cases h : keyRank y.timestamp < keyRank x.timestamp
    · rw [if_pos h]
    · rw [if_neg h]
      exact (ih.cons y).trans (List.Perm.swap x y ys)

/-- The query rows are a permutation of the stored rows. -/
theorem foldl_insert_row_perm :
    ∀ (db acc : List Row), (db.foldl (fun a x => insert_row x a) acc).Perm (db ++ acc) := by
  intro db
  induction db with
  | nil => intro acc; simp
  | cons x xs ih =>
    intro acc
    rw [List.foldl_cons]
    have h2 : (xs ++ insert_row x acc).Perm (xs ++ (x :: acc)) :=
      List.Perm.append_left xs (insert_row_perm x acc)
    simpa using (ih (insert_row x acc)).trans (h2.trans List.perm_middle)

/-- Stable descending insertion preserves the query order invariant. -/
theorem insert_row_sorted (x : Row) :
    ∀ l : List Row, l.Pairwise RowOrdered → (insert_row x l).Pairwise RowOrdered := by
  intro l
  induction l with
  | nil => intro _; simp [insert_row]
  | cons y ys ih =>
    intro h
    rw [List.pairwise_cons] at h
    obtain ⟨hy, hys⟩ := h
    rw [insert_row]
    by_cases hk : keyRank y.timestamp < keyRank x.timestamp
    · rw [if_pos hk]
      refine List.Pairwise.cons ?_ (List.Pairwise.cons hy hys)
      intro b hb
      rcases List.mem_cons.mp hb with rfl | hbmem
      · exact le_of_lt hk
      · exact le_trans (hy b hbmem) (le_of_lt hk)
    · rw [if_neg hk]
      refine List.Pairwise.cons ?_ (ih hys)
      intro b hb
      have hb2 : b ∈ x :: ys := (insert_row_perm x ys).mem_iff.mp hb
      rcases List.mem_cons.mp hb2 with rfl | hbmem
      · exact le_of_not_lt hk
      · exact hy b hbmem

/-- C4 (amended): the ordered entry listing returns exactly the catalog rows
(a permutation of the table) sorted by `timestamp DESC NULLS LAST` — that
is, by descending `keyRank`.  Because `update_db` stamps every inserted row
with the enrichment time, a never-launched row carries its enrichment
timestamp and is ordered by it; never-launched rows therefore do NOT come
unconditionally after all launched rows (see the counterexample). -/
theorem ordered_listing_sorted_by_timestamp (db : List Row) :
    (order_rows db).Perm db ∧ (order_rows db).Pairwise RowOrdered := by
  constructor
  · simpa using foldl_insert_row_perm db []
  · rw [order_rows]
    have hgen : ∀ (rows acc : List Row), acc.Pairwise RowOrdered →
        (rows.foldl (fun a x => insert_row x a) acc).Pairwise RowOrdered := by
      intro rows
      induction rows with
      | nil => intro acc h; simpa using h
      | cons x xs ih =>
        intro acc h
        rw [List.foldl_cons]
        exact ih (insert_row x acc) (insert_row_sorted x acc h)
    exact hgen db [] (by simp)

/-- C4 counterexample: appid 1 is enriched at time 1 and launched at time 3;
appid 2 is then enriched at time 5 and never launched.  The ordered listing
puts the never-launched appid 2 before the launched appid 1, so
never-launched entries do not appear after all launched entries. -/
theorem ordered_listing_counterexample :
    update_db (fun _ => Except.ok "A") (fun t => t) 1 [] [1] =
      Except.ok [⟨1, "A", some 1⟩] ∧
    (launch_game 0 3 [⟨1, "A", some 1⟩] 1).2 = [⟨1, "A", some 3⟩] ∧
    update_db (fun _ => Except.ok "B") (fun t => t) 5 [⟨1, "A", some 3⟩] [2] =
      Except.ok [⟨1, "A", some 3⟩, ⟨2, "B", some 5⟩] ∧
    (order_rows [⟨1, "A", some 3⟩, ⟨2, "B", some 5⟩]).map Row.appid = [2, 1] :=
  ⟨rfl, rfl, rfl, rfl⟩

/-- A Python dict update never duplicates a key: overwriting keeps the key
list unchanged, appending adds a key that was absent. -/
theorem dictInsert_keys_nodup (d : List (String × ℕ)) (k : String) (v : ℕ)
    (h : (d.map Prod.fst).Nodup) : ((dictInsert d k v).map Prod.fst).Nodup := by
  rw [dictInsert]
  by_cases hc : d.any (fun p => p.1 == k) = true
  · rw [if_pos hc]
    have hkeys : (d.map (fun p => if p.1 = k then (k, v) else p)).map Prod.fst =
        d.map Prod.fst := by
      rw [List.map_map]
      refine List.map_congr_left ?_
      intro p _
      by_cases hp : p.1 = k
      · simp [hp]
      · simp [hp]
    rw [hkeys]
    exact h
  · rw [if_neg hc]
    rw [List.map_append]
    refine List.Nodup.append h (by simp) ?_
    intro a ha hb
    rcases List.mem_singleton.mp hb with rfl
    obtain ⟨p, hp, hpk⟩ := List.mem_map.mp ha
    exact hc (List.any_eq_true.mpr ⟨p, hp, by simp [hpk]⟩)

/-- Folding dict updates over any row sequence keeps the key list
duplicate-free. -/
theorem entries_fold_keys_nodup :
    ∀ (rows : List Row) (acc : List (String × ℕ)), (acc.map Prod.fst).Nodup →
      ((rows.foldl (fun d row => dictInsert d row.name row.appid) acc).map
        Prod.fst).Nodup := by
  intro rows
  induction rows with
  | nil => intro acc h; simpa using h
  | cons x xs ih =>
    intro acc h
    rw [List.foldl_cons]
    exact ih (dictInsert acc x.name x.appid) (dictInsert_keys_nodup acc x.name x.appid h)

/-- C9: the selection menu collapses duplicate display names.  The entries
handed to the prompt are the keys of a dict keyed by name, so they are
duplicate-free; when the two catalog rows `(1, "x")` and `(2, "x")` share
the name "x", the menu holds a single line "x" whose stored appid is that of
the row that came last in the ordered query (appid 2, the older timestamp),
and the row with appid 1 — although present in the catalog — is the value of
no menu entry, so it cannot be launched through the menu. -/
theorem menu_collapses_duplicate_names :
    (∀ db : List Row, ((get_game_entries db).map Prod.fst).Nodup) ∧
    get_game_entries [⟨1, "x", some 5⟩, ⟨2, "x", some 3⟩] = [("x", 2)] ∧
    (order_rows [⟨1, "x", some 5⟩, ⟨2, "x", some 3⟩]).map Row.appid = [1, 2] ∧
    (1 ∈ ([⟨1, "x", some 5⟩, ⟨2, "x", some 3⟩] : List Row).map Row.appid) ∧
    (∀ p ∈ get_game_entries [⟨1, "x", some 5⟩, ⟨2, "x", some 3⟩], p.2 ≠ 1) := by
  refine ⟨fun db => entries_fold_keys_nodup (order_rows db) [] (by simp),
    rfl, rfl, by simp, by decide⟩

/-- C6: end-to-end scenario A.  With file appids `{10, 20}`, catalog rows
for 20 and 30, and exclusion list `[10]`: the new set after exclusion is
empty — appid 10 is never added and no enrichment happens, whatever the
network or the clock would answer — the stale set is `{30}`, and the catalog
afterwards holds exactly the row of appid 20. -/
theorem scenario_a_end_to_end (resolve : ℕ → Except ℕ String) (clock : ℕ → ℕ)
    (t : ℕ) :
    strip_blacklisted_appids (get_new_appids {10, 20} {20, 30}) {10} = ∅ ∧
    get_old_appids {10, 20} {20, 30} = {30} ∧
    main_update resolve clock t [⟨20, "twenty", some 1⟩, ⟨30, "thirty", none⟩]
      [10, 20] [10] = Except.ok [⟨20, "twenty", some 1⟩] := by
  refine ⟨by decide, by decide, ?_⟩
  have hnew : strip_blacklisted_appids (get_new_appids {10, 20} {20, 30})
      ({10} : Finset ℕ) = ∅ := by decide
  have hold : get_old_appids ({10, 20} : Finset ℕ) {20, 30} = {30} := by decide
  rw [main_update]
  norm_num [clean_db]
  rw [hnew, hold, Finset.sort_empty, Finset.sort_singleton]
  norm_num

end SteamLauncher
